import Mathlib

/-!
# Verification of the triage graph engine

A shallow embedding, in Lean, of the execution-graph core of the incident
triage service (`src/backend/src`): the orchestrator/Router decision node
(`orchestrator.py:orchestrator_node`), the fan-out resolution
(`orchestrator.py:fan_out_router`), the result reducer
(`orchestrator.py:merge_sub_agent_results`), the graph wiring
(`orchestrator.py:build_graph`), the aggregation node
(`sub_agents/triage.py:triage_node`), the three diagnostic worker nodes
(`sub_agents/{infoblox,aci,palo_alto}.py`), and the SSE encoding of the final
report (`streaming.py:stream_graph_events`) together with its consumer-side
decoding (`frontend/app.py`).

External collaborators (the planning / summarization LLM calls, the react
agents inside the worker nodes) are modelled as oracle values of type
`Except String α`: `.ok` is a normal return, `.error e` is a raised exception
with text `e`, exactly the two outcomes the `try/except` blocks in the source
distinguish.  Whether the planning oracle was consumed is recorded explicitly
(`planner_calls`), mirroring the call-count assertion the spec asks for.
-/

namespace TriageFlow

/-! ## Python value model

`incident_data` is a Python `dict` of string keys to arbitrary values, and the
Router's guard `if not source_ip or not destination_ip:` uses Python
truthiness.  `PyVal` models the values that can sit in such a dict, and
`PyVal.truthy` models Python's truth test on them. -/

inductive PyVal where
  | pyNone : PyVal
  | pyBool : Bool → PyVal
  | pyInt : Int → PyVal
  | pyStr : String → PyVal
  | pyList : List PyVal → PyVal

/-- Python truthiness: `None`, `False`, `0`, `""` and `[]` are falsy. -/
def PyVal.truthy : PyVal → Bool
  | .pyNone => false
  | .pyBool b => b
  | .pyInt n => decide (n ≠ 0)
  | .pyStr s => decide (s ≠ "")
  | .pyList xs => !xs.isEmpty

/-- Model of `dict.get(key)`: `none` when the key is absent. -/
def dictGet (d : List (String × PyVal)) (k : String) : Option PyVal :=
  match d with
  | [] => none
  | (k0, v) :: rest => if k0 = k then some v else dictGet rest k

/-- Truthiness of a `dict.get` result: an absent key yields `None`, which is
falsy. -/
def truthyOpt : Option PyVal → Bool
  | none => false
  | some v => v.truthy

/-! ## Data model (`models.py`) -/

/-- The status enum `AgentStatus` (`models.py`). -/
inductive AgentStatus where
  | SUCCESS : AgentStatus
  | FAILURE : AgentStatus
  | UNKNOWN : AgentStatus
deriving DecidableEq

/-- The `.value` of the string enum. -/
def AgentStatus.value : AgentStatus → String
  | .SUCCESS => "SUCCESS"
  | .FAILURE => "FAILURE"
  | .UNKNOWN => "UNKNOWN"

/-- The model `SubAgentResult` (`models.py`). -/
structure SubAgentResult where
  agent_name : String
  raw_data : List (String × PyVal)
  summary : String
  status : AgentStatus

/-- The model `OrchestratorDecision` (`models.py`). -/
structure OrchestratorDecision where
  next_steps : List String
  reasoning : String
deriving DecidableEq

/-- The `details` field of `TriageReport` is `Union[List[str], str]`. -/
inductive TriageDetails where
  | text : String → TriageDetails
  | items : List String → TriageDetails
deriving DecidableEq

/-- The model `TriageReport` (`models.py`), field order as declared (the order
`.dict()` serializes them in). -/
structure TriageReport where
  root_cause : String
  details : TriageDetails
  action : String
  failed_agents : List String
deriving DecidableEq

/-- The graph state `AgentState` (`orchestrator.py`). -/
structure AgentState where
  messages : List String
  incident_data : List (String × PyVal)
  next_node : String
  decision : OrchestratorDecision
  sub_agent_results : List SubAgentResult
  triage_report : Option TriageReport

/-! ## Result reducer (`orchestrator.py:merge_sub_agent_results`) -/

/-- The reducer `merge_sub_agent_results(left, right) = (left or []) + (right or [])`.
Python's `or` yields `[]` exactly when the operand is an empty (falsy) list. -/
def merge_sub_agent_results (left right : List SubAgentResult) : List SubAgentResult :=
  (if left.isEmpty then [] else left) ++ (if right.isEmpty then [] else right)

/-! ## Router (`orchestrator.py:orchestrator_node`) -/

/-- What `orchestrator_node` returns: the partial state update (`next_node` is
only set on the deterministic branch) plus how many times the planning
collaborator was invoked during the call. -/
structure OrchOutcome where
  next_node : Option String
  decision : OrchestratorDecision
  planner_calls : Nat

/-- The fixed reasoning text of the deterministic enrichment branch. -/
def missingIpReasoning : String :=
  "Missing source_ip or destination_ip. Routing to Infoblox for IPAM enrichment."

/-- The router `orchestrator_node` with the planning LLM as an oracle: `.ok d` models
`structured_llm.invoke` returning decision `d`, `.error e` models it raising
an exception with text `e`. -/
def orchestrator_node (plan : Except String OrchestratorDecision)
    (state : AgentState) : OrchOutcome :=
  let source_ip := dictGet state.incident_data "source_ip"
  let destination_ip := dictGet state.incident_data "destination_ip"
  if !truthyOpt source_ip || !truthyOpt destination_ip then
    { next_node := some "infoblox"
      decision := { next_steps := ["infoblox"], reasoning := missingIpReasoning }
      planner_calls := 0 }
  else
    let decision :=
      match plan with
      | .ok d => d
      | .error e =>
          { next_steps := ["aci", "palo_alto"]
            reasoning := "LLM parsing failed, defaulting to full scan. Error: " ++ e }
    let decision :=
      if decision.next_steps.isEmpty then
        { decision with next_steps := ["aci", "palo_alto"] }
      else decision
    { next_node := none, decision := decision, planner_calls := 1 }

/-! ## Fan-out resolution (`orchestrator.py:fan_out_router`) -/

/-- LangGraph's `END` sentinel. -/
def ENDNode : String := "__end__"

/-- The conditional edge `fan_out_router`, verbatim from the source: membership tests on
`decision.next_steps` build the parallel node list; an empty result defaults
to `[END]`. -/
def fan_out_router (state : AgentState) : List String :=
  let next_steps := state.decision.next_steps
  let nodes_to_run :=
    (if "infoblox" ∈ next_steps then ["infoblox"] else []) ++
    (if "aci" ∈ next_steps ∨ "sub_agents" ∈ next_steps then ["aci"] else []) ++
    (if "palo_alto" ∈ next_steps ∨ "sub_agents" ∈ next_steps then ["palo_alto"] else [])
  if nodes_to_run.isEmpty then [ENDNode] else nodes_to_run

/-- The fixed per-name resolution table, as the spec words it: a specific
worker name maps to itself, the catch-all `"sub_agents"` maps to the full
registered diagnostic worker set, an unrecognized name maps to nothing. -/
def fanOutTable (name : String) : List String :=
  if name = "infoblox" then ["infoblox"]
  else if name = "aci" then ["aci"]
  else if name = "palo_alto" then ["palo_alto"]
  else if name = "sub_agents" then ["aci", "palo_alto"]
  else []

/-- Spec-side resolution: map every name of `next_steps` through the table and
take the union of the results. -/
def resolveSteps (steps : List String) : List String :=
  (steps.map fanOutTable).flatten

/-! ## Graph wiring (`orchestrator.py:build_graph`) -/

/-- The registered graph nodes plus the `END` sentinel. -/
inductive GNode where
  | orchestrator : GNode
  | infoblox : GNode
  | aci : GNode
  | palo_alto : GNode
  | triage : GNode
  | ENDN : GNode
deriving DecidableEq

/-- Node names as registered in `build_graph`. -/
def nodeOfName (s : String) : Option GNode :=
  if s = "orchestrator" then some .orchestrator
  else if s = "infoblox" then some .infoblox
  else if s = "aci" then some .aci
  else if s = "palo_alto" then some .palo_alto
  else if s = "triage" then some .triage
  else if s = ENDNode then some .ENDN
  else none

/-- The step relation of the compiled graph: the conditional edge out of the
orchestrator is `fan_out_router`; every sub-agent node has a fixed edge to
`triage`; `triage` has a fixed edge to `END`. -/
def graph_successors (n : GNode) (state : AgentState) : List GNode :=
  match n with
  | .orchestrator => (fan_out_router state).filterMap nodeOfName
  | .infoblox => [.triage]
  | .aci => [.triage]
  | .palo_alto => [.triage]
  | .triage => [.ENDN]
  | .ENDN => []

/-- A topological rank witnessing that the step relation is acyclic. -/
def GNode.rank : GNode → Nat
  | .orchestrator => 0
  | .infoblox => 1
  | .aci => 1
  | .palo_alto => 1
  | .triage => 2
  | .ENDN => 3

/-! ## Aggregator (`sub_agents/triage.py:triage_node`) -/

/-- The deterministic partition of worker results the aggregator computes:
the names of the results whose `status.value == "FAILURE"`, in input order. -/
def failedAgentNames (results : List SubAgentResult) : List String :=
  (results.filter (fun r => r.status.value = "FAILURE")).map (fun r => r.agent_name)

/-- The aggregator `triage_node` with the summarization LLM as an oracle.  On `.ok report`
the code overwrites `report.failed_agents` with the deterministic partition;
on `.error e` (the `except` branch) it builds the fixed fallback report.  In
either case a `TriageReport` value is returned — the function is total, which
is the embedding of "never propagates an exception to the caller". -/
def triage_node (summarize : Except String TriageReport)
    (state : AgentState) : TriageReport :=
  let results := state.sub_agent_results
  let failed_agent_names := failedAgentNames results
  match summarize with
  | .ok report => { report with failed_agents := failed_agent_names }
  | .error e =>
      { root_cause := "Analysis Failed"
        details := .text ("Failed to generate triage report due to error: " ++ e)
        action := "Manual investigation required"
        failed_agents := failed_agent_names }

/-! ## Worker nodes (`sub_agents/{aci,palo_alto,infoblox}.py`)

Each node invokes a react agent inside `try/except`.  The agent is modelled
as an oracle `Except String (List String)`: `.ok msgs` is a normal return
carrying the contents of `result["messages"]`, `.error e` is any raised
exception with text `e`.  The source reads `result["messages"][-1]`, which on
an empty message list raises an `IndexError` that the same `except` catches —
hence the `none` branch of `getLast?`. -/

/-- The worker node `aci_node` (`sub_agents/aci.py`). -/
def aci_node (invoke : Except String (List String)) : SubAgentResult :=
  match invoke with
  | .ok msgs =>
      match msgs.getLast? with
      | some last =>
          { agent_name := "aci"
            raw_data := [("messages", .pyList (msgs.map PyVal.pyStr))]
            summary := last
            status := .SUCCESS }
      | none =>
          { agent_name := "aci"
            raw_data := [("error", .pyStr "list index out of range")]
            summary := "Error executing ACI agent: list index out of range"
            status := .FAILURE }
  | .error e =>
      { agent_name := "aci"
        raw_data := [("error", .pyStr e)]
        summary := "Error executing ACI agent: " ++ e
        status := .FAILURE }

/-- The worker node `palo_node` (`sub_agents/palo_alto.py`). -/
def palo_node (invoke : Except String (List String)) : SubAgentResult :=
  match invoke with
  | .ok msgs =>
      match msgs.getLast? with
      | some last =>
          { agent_name := "palo_alto"
            raw_data := [("messages", .pyList (msgs.map PyVal.pyStr))]
            summary := last
            status := .SUCCESS }
      | none =>
          { agent_name := "palo_alto"
            raw_data := [("error", .pyStr "list index out of range")]
            summary := "Error executing Palo Alto agent: list index out of range"
            status := .FAILURE }
  | .error e =>
      { agent_name := "palo_alto"
        raw_data := [("error", .pyStr e)]
        summary := "Error executing Palo Alto agent: " ++ e
        status := .FAILURE }

/-- The worker node `infoblox_node` (`sub_agents/infoblox.py`). -/
def infoblox_node (invoke : Except String (List String)) : SubAgentResult :=
  match invoke with
  | .ok msgs =>
      match msgs.getLast? with
      | some last =>
          { agent_name := "infoblox"
            raw_data := [("messages", .pyList (msgs.map PyVal.pyStr))]
            summary := last
            status := .SUCCESS }
      | none =>
          { agent_name := "infoblox"
            raw_data := [("error", .pyStr "list index out of range")]
            summary := "Error executing Infoblox agent: list index out of range"
            status := .FAILURE }
  | .error e =>
      { agent_name := "infoblox"
        raw_data := [("error", .pyStr e)]
        summary := "Error executing Infoblox agent: " ++ e
        status := .FAILURE }

/-! ## Claims about the Router -/

/-- C1: for every `State` whose `incident_data` is missing the key
`source_ip` or the key `destination_ip`, `orchestrator_node` returns a
decision whose `next_steps` is exactly `["infoblox"]` (the enrichment node),
and the planning collaborator is not invoked on that call. -/
theorem router_missing_key_routes_to_enrichment
    (plan : Except String OrchestratorDecision) (state : AgentState)
    (h : dictGet state.incident_data "source_ip" = none ∨
         dictGet state.incident_data "destination_ip" = none) :
    (orchestrator_node plan state).decision.next_steps = ["infoblox"] ∧
    (orchestrator_node plan state).planner_calls = 0 := by
  rcases h with h | h <;>
    simp [orchestrator_node, h, truthyOpt]

/-- Witness for C1: a concrete state whose `incident_data` lacks
`source_ip`. -/
theorem router_missing_key_routes_to_enrichment_witness :
    dictGet [("destination_ip", PyVal.pyStr "10.0.0.2")] "source_ip" = none ∧
    ((orchestrator_node (.ok ⟨["aci"], "planner says aci"⟩)
        ⟨[], [("destination_ip", PyVal.pyStr "10.0.0.2")], "", ⟨[], ""⟩, [], none⟩).decision.next_steps
        = ["infoblox"] ∧
     (orchestrator_node (.ok ⟨["aci"], "planner says aci"⟩)
        ⟨[], [("destination_ip", PyVal.pyStr "10.0.0.2")], "", ⟨[], ""⟩, [], none⟩).planner_calls = 0) :=
  ⟨rfl, router_missing_key_routes_to_enrichment _ _ (Or.inl rfl)⟩

/-- C10 (implicit): the Router's missing-key check is a truthiness check, not
a key-presence check — a key mapped to a falsy value (empty string, `None`,
`0`, …) is treated exactly like an absent key: enrichment decision, planner
not invoked. -/
theorem router_falsy_value_treated_as_missing
    (plan : Except String OrchestratorDecision) (state : AgentState) (v : PyVal)
    (h : (dictGet state.incident_data "source_ip" = some v ∨
          dictGet state.incident_data "destination_ip" = some v) ∧ v.truthy = false) :
    (orchestrator_node plan state).decision.next_steps = ["infoblox"] ∧
    (orchestrator_node plan state).planner_calls = 0 := by
  obtain ⟨h, hv⟩ := h
  rcases h with h | h <;>
    simp [orchestrator_node, h, truthyOpt, hv]

/-- Witness for C10: `source_ip` present but bound to the empty string. -/
theorem router_falsy_value_treated_as_missing_witness :
    ((dictGet [("source_ip", PyVal.pyStr ""), ("destination_ip", PyVal.pyStr "10.0.0.2")] "source_ip"
        = some (PyVal.pyStr "") ∨
      dictGet [("source_ip", PyVal.pyStr ""), ("destination_ip", PyVal.pyStr "10.0.0.2")] "destination_ip"
        = some (PyVal.pyStr "")) ∧ (PyVal.pyStr "").truthy = false) ∧
    ((orchestrator_node (.ok ⟨["aci"], "planner says aci"⟩)
        ⟨[], [("source_ip", PyVal.pyStr ""), ("destination_ip", PyVal.pyStr "10.0.0.2")], "", ⟨[], ""⟩, [], none⟩).decision.next_steps
        = ["infoblox"] ∧
     (orchestrator_node (.ok ⟨["aci"], "planner says aci"⟩)
        ⟨[], [("source_ip", PyVal.pyStr ""), ("destination_ip", PyVal.pyStr "10.0.0.2")], "", ⟨[], ""⟩, [], none⟩).planner_calls = 0) :=
  ⟨⟨Or.inl rfl, rfl⟩,
   router_falsy_value_treated_as_missing _ _ _ ⟨Or.inl rfl, rfl⟩⟩

/-- C4: with both required IP keys truthy, a planner exception or a planner
decision with empty `next_steps` both yield the full-scan fallback
`["aci", "palo_alto"]`; and the decision the node returns to the engine never
has empty `next_steps`. -/
theorem router_planner_failure_full_scan_fallback :
    (∀ (plan : Except String OrchestratorDecision) (state : AgentState),
      truthyOpt (dictGet state.incident_data "source_ip") = true →
      truthyOpt (dictGet state.incident_data "destination_ip") = true →
      ((∃ e, plan = .error e) ∨ (∃ d, plan = .ok d ∧ d.next_steps = [])) →
      (orchestrator_node plan state).decision.next_steps = ["aci", "palo_alto"]) ∧
    (∀ (plan : Except String OrchestratorDecision) (state : AgentState),
      (orchestrator_node plan state).decision.next_steps ≠ []) := by
  constructor
  · intro plan state hs ht hfail
    rcases hfail with ⟨e, rfl⟩ | ⟨d, rfl, hd⟩
    · simp [orchestrator_node, hs, ht]
    · simp [orchestrator_node, hs, ht, hd]
  · intro plan state
    simp only [orchestrator_node]
    split
    · simp
    · cases plan with
      | ok d =>
          by_cases hd : d.next_steps.isEmpty <;>
            simp_all [List.isEmpty_iff]
      | error e => simp

/-- Witness for C4: both IPs present, planner raises. -/
theorem router_planner_failure_full_scan_fallback_witness :
    truthyOpt (dictGet [("source_ip", PyVal.pyStr "1.2.3.4"), ("destination_ip", PyVal.pyStr "10.0.0.2")] "source_ip") = true ∧
    truthyOpt (dictGet [("source_ip", PyVal.pyStr "1.2.3.4"), ("destination_ip", PyVal.pyStr "10.0.0.2")] "destination_ip") = true ∧
    (orchestrator_node (.error "timeout")
        ⟨[], [("source_ip", PyVal.pyStr "1.2.3.4"), ("destination_ip", PyVal.pyStr "10.0.0.2")], "", ⟨[], ""⟩, [], none⟩).decision.next_steps
      = ["aci", "palo_alto"] :=
  ⟨rfl, rfl,
   router_planner_failure_full_scan_fallback.1 _ _ rfl rfl (Or.inl ⟨"timeout", rfl⟩)⟩

/-! ## Claims about the reducer, the aggregator and the workers -/

/-- C8: `merge_sub_agent_results` is exactly list concatenation (hence it
preserves the relative order within each argument, removes and mutates
nothing, and performs no deduplication by worker name), and it is
associative. -/
theorem merge_results_is_concatenation :
    (∀ left right : List SubAgentResult,
      merge_sub_agent_results left right = left ++ right) ∧
    (∀ a b c : List SubAgentResult,
      merge_sub_agent_results (merge_sub_agent_results a b) c
        = merge_sub_agent_results a (merge_sub_agent_results b c)) := by
  have happ : ∀ left right : List SubAgentResult,
      merge_sub_agent_results left right = left ++ right := by
    intro left right
    cases left <;> cases right <;> simp [merge_sub_agent_results]
  exact ⟨happ, fun a b c => by simp [happ, List.append_assoc]⟩

/-- C5: on both the success path and the failure path of the summarization
call, the report's `failed_agents` is the deterministic partition of
`sub_agent_results`: the `agent_name`s of exactly the results whose status is
`FAILURE`, in input order. -/
theorem triage_failed_agents_from_partition
    (summarize : Except String TriageReport) (state : AgentState) :
    (triage_node summarize state).failed_agents
      = (state.sub_agent_results.filter (fun r => r.status = AgentStatus.FAILURE)).map
          (fun r => r.agent_name) := by
  have hfun : ∀ r : SubAgentResult,
      (decide (r.status.value = "FAILURE")) = (decide (r.status = AgentStatus.FAILURE)) := by
    intro r
    cases h : r.status <;> simp [AgentStatus.value]
  have hfilter : state.sub_agent_results.filter (fun r => r.status.value = "FAILURE")
      = state.sub_agent_results.filter (fun r => r.status = AgentStatus.FAILURE) :=
    List.filter_congr (fun r _ => hfun r)
  cases summarize <;>
    simp [triage_node, failedAgentNames, hfilter]

/-- C6: if the summarization call raises, `triage_node` returns the fixed
fallback report — root cause "Analysis Failed", details carrying the error
text, action "Manual investigation required", `failed_agents` from the
partition — and (being a total function) always produces a report value. -/
theorem triage_summarization_failure_fallback (e : String) (state : AgentState) :
    triage_node (.error e) state =
      { root_cause := "Analysis Failed"
        details := .text ("Failed to generate triage report due to error: " ++ e)
        action := "Manual investigation required"
        failed_agents := failedAgentNames state.sub_agent_results } ∧
    (∃ pre, (triage_node (.error e) state).details = .text (pre ++ e)) := by
  exact ⟨rfl, "Failed to generate triage report due to error: ", rfl⟩

/-- C7: for each worker node, a raised exception in the underlying agent
invocation is converted into a returned `SubAgentResult` with status
`FAILURE`, the worker's own `agent_name`, and a summary containing the error
text — the node returns normally instead of propagating the exception. -/
theorem worker_error_returns_failure_result (e : String) :
    aci_node (.error e) =
      { agent_name := "aci", raw_data := [("error", .pyStr e)]
        summary := "Error executing ACI agent: " ++ e, status := .FAILURE } ∧
    palo_node (.error e) =
      { agent_name := "palo_alto", raw_data := [("error", .pyStr e)]
        summary := "Error executing Palo Alto agent: " ++ e, status := .FAILURE } ∧
    infoblox_node (.error e) =
      { agent_name := "infoblox", raw_data := [("error", .pyStr e)]
        summary := "Error executing Infoblox agent: " ++ e, status := .FAILURE } :=
  ⟨rfl, rfl, rfl⟩

/-! ## Claims about fan-out resolution and the graph's step relation -/

lemma mem_fanOutTable (x s : String) :
    x ∈ fanOutTable s ↔
      ((s = "infoblox" ∧ x = "infoblox") ∨ (s = "aci" ∧ x = "aci") ∨
       (s = "palo_alto" ∧ x = "palo_alto") ∨
       (s = "sub_agents" ∧ (x = "aci" ∨ x = "palo_alto"))) := by
  unfold fanOutTable
  split_ifs with h1 h2 h3 h4 <;> simp_all

lemma mem_resolveSteps (x : String) (steps : List String) :
    x ∈ resolveSteps steps ↔ ∃ s, s ∈ steps ∧ x ∈ fanOutTable s := by
  simp [resolveSteps, List.mem_flatten, List.mem_map]

lemma mem_resolveSteps_char (x : String) (steps : List String) :
    x ∈ resolveSteps steps ↔
      ((x = "infoblox" ∧ "infoblox" ∈ steps) ∨
       (x = "aci" ∧ ("aci" ∈ steps ∨ "sub_agents" ∈ steps)) ∨
       (x = "palo_alto" ∧ ("palo_alto" ∈ steps ∨ "sub_agents" ∈ steps))) := by
  rw [mem_resolveSteps]
  constructor
  · rintro ⟨s, hs, hx⟩
    rw [mem_fanOutTable] at hx
    rcases hx with ⟨rfl, rfl⟩ | ⟨rfl, rfl⟩ | ⟨rfl, rfl⟩ | ⟨rfl, rfl | rfl⟩
    · exact Or.inl ⟨rfl, hs⟩
    · exact Or.inr (Or.inl ⟨rfl, Or.inl hs⟩)
    · exact Or.inr (Or.inr ⟨rfl, Or.inl hs⟩)
    · exact Or.inr (Or.inl ⟨rfl, Or.inr hs⟩)
    · exact Or.inr (Or.inr ⟨rfl, Or.inr hs⟩)
  · rintro (⟨rfl, h⟩ | ⟨rfl, h | h⟩ | ⟨rfl, h | h⟩)
    · exact ⟨"infoblox", h, by simp [fanOutTable]⟩
    · exact ⟨"aci", h, by simp [fanOutTable]⟩
    · exact ⟨"sub_agents", h, by simp [fanOutTable]⟩
    · exact ⟨"palo_alto", h, by simp [fanOutTable]⟩
    · exact ⟨"sub_agents", h, by simp [fanOutTable]⟩

lemma resolveSteps_nil_iff (steps : List String) :
    resolveSteps steps = [] ↔
      (¬("infoblox" ∈ steps) ∧ ¬("aci" ∈ steps ∨ "sub_agents" ∈ steps) ∧
       ¬("palo_alto" ∈ steps ∨ "sub_agents" ∈ steps)) := by
  rw [List.eq_nil_iff_forall_not_mem]
  constructor
  · intro h
    refine ⟨fun hI => h "infoblox" ?_, fun hA => h "aci" ?_, fun hP => h "palo_alto" ?_⟩ <;>
      rw [mem_resolveSteps_char] <;> tauto
  · rintro ⟨h1, h2, h3⟩ x hx
    rw [mem_resolveSteps_char] at hx
    tauto

lemma fan_out_router_names (state : AgentState) :
    ∀ x ∈ fan_out_router state,
      x = "infoblox" ∨ x = "aci" ∨ x = "palo_alto" ∨ x = ENDNode := by
  intro x hx
  by_cases hI : "infoblox" ∈ state.decision.next_steps <;>
  by_cases hA : "aci" ∈ state.decision.next_steps ∨ "sub_agents" ∈ state.decision.next_steps <;>
  by_cases hP : "palo_alto" ∈ state.decision.next_steps ∨ "sub_agents" ∈ state.decision.next_steps <;>
  simp [fan_out_router, hI, hA, hP] at hx <;> tauto

/-- C3: fan-out resolution behaves as the fixed per-name table with unions —
an element is in the routed node list iff the table resolution of
`next_steps` produces it, except that an empty resolution routes to `END`
(and only then).  `fan_out_router` never routes to the aggregator directly,
and an empty resolution makes the orchestrator's only successor `END` —
termination without invoking the aggregator.  The function is total: an
unrecognized name contributes nothing and raises no error. -/
theorem fan_out_resolution_table (state : AgentState) :
    (∀ x, x ∈ fan_out_router state ↔
       (x ∈ resolveSteps state.decision.next_steps ∨
        (resolveSteps state.decision.next_steps = [] ∧ x = ENDNode))) ∧
    "triage" ∉ fan_out_router state ∧
    (resolveSteps state.decision.next_steps = [] →
       fan_out_router state = [ENDNode] ∧
       graph_successors .orchestrator state = [GNode.ENDN]) := by
  by_cases hI : "infoblox" ∈ state.decision.next_steps <;>
  by_cases hA : "aci" ∈ state.decision.next_steps ∨ "sub_agents" ∈ state.decision.next_steps <;>
  by_cases hP : "palo_alto" ∈ state.decision.next_steps ∨ "sub_agents" ∈ state.decision.next_steps <;>
  refine ⟨fun x => ?_, ?_, fun hnil => ?_⟩ <;>
    simp_all [fan_out_router, mem_resolveSteps_char, resolveSteps_nil_iff,
      graph_successors, nodeOfName, ENDNode]

/-- Witness for C3: a decision naming only an unrecognized step resolves to
nothing and routes straight to `END`. -/
theorem fan_out_resolution_table_witness :
    resolveSteps (AgentState.decision ⟨[], [], "", ⟨["bogus"], ""⟩, [], none⟩).next_steps = [] ∧
    (fan_out_router ⟨[], [], "", ⟨["bogus"], ""⟩, [], none⟩ = [ENDNode] ∧
     graph_successors .orchestrator ⟨[], [], "", ⟨["bogus"], ""⟩, [], none⟩ = [GNode.ENDN]) :=
  ⟨rfl, (fan_out_resolution_table _).2.2 rfl⟩

/-- Counterexample to C2 as stated: in the graph built by `build_graph`, the
enrichment node's successor is the aggregator (`triage`), not the
orchestrator — the Router is not invoked again after enrichment, so there is
no `decide`→`enrich`→`decide` cycle to run. -/
theorem enrichment_does_not_loop_to_router :
    graph_successors .infoblox ⟨[], [], "infoblox", ⟨["infoblox"], ""⟩, [], none⟩
      = [GNode.triage] ∧
    GNode.orchestrator ∉
      graph_successors .infoblox ⟨[], [], "infoblox", ⟨["infoblox"], ""⟩, [], none⟩ :=
  ⟨rfl, by decide⟩

/-- C2 as amended: when the decision names the single enrichment node the
engine runs it and then transitions to the aggregator (`triage`), never back
to the Router; and the step relation is acyclic — every edge strictly
increases the topological rank, so no cycle (in particular no
`decide`→`enrich`→`decide` cycle) exists at all. -/
theorem enrichment_goes_to_aggregator_and_graph_acyclic :
    (∀ state : AgentState,
      graph_successors .infoblox state = [GNode.triage] ∧
      GNode.orchestrator ∉ graph_successors .infoblox state) ∧
    (∀ (n : GNode) (state : AgentState) (m : GNode),
      m ∈ graph_successors n state → n.rank < m.rank) := by
  constructor
  · intro state
    exact ⟨rfl, by simp [graph_successors]⟩
  · intro n state m hm
    cases n with
    | orchestrator =>
        simp only [graph_successors, List.mem_filterMap] at hm
        obtain ⟨s, hs, hns⟩ := hm
        rcases fan_out_router_names state s hs with rfl | rfl | rfl | rfl <;>
          simp [nodeOfName, ENDNode] at hns <;>
          (subst hns; decide)
    | infoblox => simp_all [graph_successors]; subst hm; decide
    | aci => simp_all [graph_successors]; subst hm; decide
    | palo_alto => simp_all [graph_successors]; subst hm; decide
    | triage => simp_all [graph_successors]; subst hm; decide
    | ENDN => simp_all [graph_successors]

/-- Witness for the amended C2: a concrete edge of the step relation strictly
increases the rank. -/
theorem enrichment_goes_to_aggregator_witness :
    GNode.triage ∈ graph_successors .infoblox ⟨[], [], "", ⟨["infoblox"], ""⟩, [], none⟩ ∧
    GNode.rank .infoblox < GNode.rank .triage :=
  ⟨by decide,
   enrichment_goes_to_aggregator_and_graph_acyclic.2 .infoblox
     ⟨[], [], "", ⟨["infoblox"], ""⟩, [], none⟩ .triage (by decide)⟩

/-! ## Wire encoding of the final report (`streaming.py` / `frontend/app.py`)

`stream_graph_events` emits the final report as the SSE frame
`"event: triage_report\ndata: " + json.dumps(report.dict()) + "\n\n"`, and the
frontend recovers it by splitting the stream into lines, reading the
`event:`/`data:` prefixes (`split(":", 1)[1].strip()`), and `json.loads`-ing
the data line.

The JSON values that ever cross this wire are objects whose field values are
strings or arrays of strings (`details` is `Union[List[str], str]`,
`failed_agents` is `List[str]`, the rest are strings).  `JVal` is that
fragment of JSON; `dumpObj` models `json.dumps` on it (default separators,
`ensure_ascii=True`, so every non-ASCII character leaves as a `\uXXXX`
escape, astral characters as a surrogate pair) and the parsers below model
`json.loads` restricted to the same fragment. -/

/-- The JSON values appearing in a serialized report: strings and arrays of
strings. -/
inductive JVal where
  | jstr : String → JVal
  | jarr : List String → JVal
deriving DecidableEq

/-- Lowercase hex digit, as Python's `'\\u%04x'` formatting produces. -/
def hexDigitChar (d : Nat) : Char :=
  if d < 10 then Char.ofNat (48 + d) else Char.ofNat (87 + d)

/-- The four hex digits of `n < 0x10000`, most significant first. -/
def hex4Chars (n : Nat) : List Char :=
  [hexDigitChar (n / 4096 % 16), hexDigitChar (n / 256 % 16),
   hexDigitChar (n / 16 % 16), hexDigitChar (n % 16)]

/-- Numeric value of a hex digit character (json accepts both cases). -/
def hexDigitVal (c : Char) : Option Nat :=
  if 48 ≤ c.toNat ∧ c.toNat ≤ 57 then some (c.toNat - 48)
  else if 97 ≤ c.toNat ∧ c.toNat ≤ 102 then some (c.toNat - 87)
  else if 65 ≤ c.toNat ∧ c.toNat ≤ 70 then some (c.toNat - 55)
  else none

/-- One character as `json.dumps` (with its default `ensure_ascii=True`)
writes it inside a string literal: short escapes for the two JSON specials
and the five named control characters, `\uXXXX` for the remaining control
characters and for everything above `~` (0x7E), with an UTF-16 surrogate
pair for characters beyond 0xFFFF. -/
def escapeChar (c : Char) : List Char :=
  if c = '\"' then ['\\', '\"']
  else if c = '\\' then ['\\', '\\']
  else if c = '\n' then ['\\', 'n']
  else if c = '\r' then ['\\', 'r']
  else if c = '\t' then ['\\', 't']
  else if c = Char.ofNat 8 then ['\\', 'b']
  else if c = Char.ofNat 12 then ['\\', 'f']
  else if c.toNat < 0x20 then '\\' :: 'u' :: hex4Chars c.toNat
  else if c.toNat ≤ 0x7E then [c]
  else if c.toNat < 0x10000 then '\\' :: 'u' :: hex4Chars c.toNat
  else
    ('\\' :: 'u' :: hex4Chars (0xD800 + (c.toNat - 0x10000) / 0x400)) ++
    ('\\' :: 'u' :: hex4Chars (0xDC00 + (c.toNat - 0x10000) % 0x400))

/-- Escape a whole character sequence. -/
def escapeChars (cs : List Char) : List Char :=
  (cs.map escapeChar).flatten

/-- A JSON string literal: quote, escaped body, quote. -/
def dumpStr (s : String) : List Char :=
  '\"' :: (escapeChars s.data ++ ['\"'])

/-- A JSON array of strings with `json.dumps`'s default `", "` separator. -/
def dumpStrListBody : List String → List Char
  | [] => []
  | [x] => dumpStr x
  | x :: y :: rest => dumpStr x ++ ',' :: ' ' :: dumpStrListBody (y :: rest)

def dumpStrList (xs : List String) : List Char :=
  '[' :: (dumpStrListBody xs ++ [']'])

def dumpJVal : JVal → List Char
  | .jstr s => dumpStr s
  | .jarr xs => dumpStrList xs

/-- Object members with `json.dumps`'s default `", "` and `": "`
separators. -/
def dumpMembers : List (String × JVal) → List Char
  | [] => []
  | [(k, v)] => dumpStr k ++ ':' :: ' ' :: dumpJVal v
  | (k, v) :: kv :: rest =>
      dumpStr k ++ ':' :: ' ' :: dumpJVal v ++ ',' :: ' ' :: dumpMembers (kv :: rest)

/-- Model of `json.dumps` on a dict of this fragment. -/
def dumpObj (kvs : List (String × JVal)) : List Char :=
  '{' :: (dumpMembers kvs ++ ['}'])

/-- The `details` field as the JSON value `report.dict()` holds for it. -/
def detailsJVal : TriageDetails → JVal
  | .text s => .jstr s
  | .items xs => .jarr xs

/-- The dict `report.dict()` as a key/value sequence, in pydantic's field declaration
order. -/
def reportPairs (r : TriageReport) : List (String × JVal) :=
  [("root_cause", .jstr r.root_cause),
   ("details", detailsJVal r.details),
   ("action", .jstr r.action),
   ("failed_agents", .jarr r.failed_agents)]

/-- Model of `json.dumps(report.dict())`. -/
def dumpReport (r : TriageReport) : List Char :=
  dumpObj (reportPairs r)

/-- The SSE frame `stream_graph_events` yields for the final report. -/
def triageFrame (r : TriageReport) : List Char :=
  ("event: triage_report\ndata: ").data ++ dumpReport r ++ ['\n', '\n']

/-! ### The consumer-side string parser (model of `json.loads` string
literals on this fragment) -/

lemma hexDigitVal_hexDigitChar (d : Nat) (h : d < 16) :
    hexDigitVal (hexDigitChar d) = some d := by
  interval_cases d <;> rfl

lemma char_toNat_valid (c : Char) :
    c.toNat < 0xD800 ∨ (0xE000 ≤ c.toNat ∧ c.toNat < 0x110000) := by
  have h := c.valid
  unfold UInt32.isValidChar Nat.isValidChar at h
  rcases h with h | h
  · exact Or.inl h
  · exact Or.inr h

/-- Prepend a character to the string being accumulated by `parseStrBody`. -/
def consStr (c : Char) : Option (List Char × List Char) → Option (List Char × List Char)
  | some (cs, rest) => some (c :: cs, rest)
  | none => none

/-- Decode the low half of a surrogate pair: expects `\uXXXX` with `XXXX` in
the low-surrogate range and combines it with the already-read high half `v`
into the astral code point. -/
def decodeLowSurrogate (v : Nat) : List Char → Option (Char × List Char)
  | b1 :: u1 :: g1 :: g2 :: g3 :: g4 :: rest4 =>
    if b1 = '\\' ∧ u1 = 'u' then
      match hexDigitVal g1, hexDigitVal g2, hexDigitVal g3, hexDigitVal g4 with
      | some a2, some b2, some c2, some d2 =>
        if 0xDC00 ≤ ((a2 * 16 + b2) * 16 + c2) * 16 + d2 ∧
           ((a2 * 16 + b2) * 16 + c2) * 16 + d2 ≤ 0xDFFF then
          some (Char.ofNat (0x10000 + (v - 0xD800) * 0x400 +
            (((a2 * 16 + b2) * 16 + c2) * 16 + d2 - 0xDC00)), rest4)
        else none
      | _, _, _, _ => none
    else none
  | _ => none

/-- Decode a `\uXXXX` escape (the part after `\u`): four hex digits, then
either a lone BMP code point or, for a high surrogate, a following low
surrogate. -/
def decodeU : List Char → Option (Char × List Char)
  | h1 :: h2 :: h3 :: h4 :: rest3 =>
    match hexDigitVal h1, hexDigitVal h2, hexDigitVal h3, hexDigitVal h4 with
    | some a, some b, some c3, some d =>
      if 0xD800 ≤ ((a * 16 + b) * 16 + c3) * 16 + d ∧
         ((a * 16 + b) * 16 + c3) * 16 + d ≤ 0xDBFF then
        decodeLowSurrogate (((a * 16 + b) * 16 + c3) * 16 + d) rest3
      else if 0xDC00 ≤ ((a * 16 + b) * 16 + c3) * 16 + d ∧
              ((a * 16 + b) * 16 + c3) * 16 + d ≤ 0xDFFF then none
      else some (Char.ofNat (((a * 16 + b) * 16 + c3) * 16 + d), rest3)
    | _, _, _, _ => none
  | _ => none

/-- Decode one escape sequence (the part after the backslash): the decoded
character and the remaining input.  Handles the short escapes and `\uXXXX`,
recombining a high/low surrogate pair into its astral code point. -/
def decodeEsc : List Char → Option (Char × List Char)
  | [] => none
  | e :: rest =>
    if e = '\"' then some ('\"', rest)
    else if e = '\\' then some ('\\', rest)
    else if e = '/' then some ('/', rest)
    else if e = 'n' then some ('\n', rest)
    else if e = 'r' then some ('\r', rest)
    else if e = 't' then some ('\t', rest)
    else if e = 'b' then some (Char.ofNat 8, rest)
    else if e = 'f' then some (Char.ofNat 12, rest)
    else if e = 'u' then decodeU rest
    else none

lemma decodeLowSurrogate_length (v : Nat) (l : List Char) (ch : Char) (r : List Char)
    (h : decodeLowSurrogate v l = some (ch, r)) : r.length ≤ l.length := by
  match l with
  | b1 :: u1 :: g1 :: g2 :: g3 :: g4 :: rest4 =>
      simp only [decodeLowSurrogate] at h
      repeat' split at h
      all_goals first
        | (simp only [Option.some.injEq, Prod.mk.injEq] at h
           obtain ⟨hch, hr⟩ := h
           subst hr
           simp only [List.length_cons]
           omega)
        | simp at h
  | [] => simp [decodeLowSurrogate] at h
  | [x1] => simp [decodeLowSurrogate] at h
  | [x1, x2] => simp [decodeLowSurrogate] at h
  | [x1, x2, x3] => simp [decodeLowSurrogate] at h
  | [x1, x2, x3, x4] => simp [decodeLowSurrogate] at h
  | [x1, x2, x3, x4, x5] => simp [decodeLowSurrogate] at h

lemma decodeU_length (l : List Char) (ch : Char) (r : List Char)
    (h : decodeU l = some (ch, r)) : r.length ≤ l.length := by
  match l with
  | h1 :: h2 :: h3 :: h4 :: rest3 =>
      simp only [decodeU] at h
      repeat' split at h
      all_goals first
        | (simp only [Option.some.injEq, Prod.mk.injEq] at h
           obtain ⟨hch, hr⟩ := h
           subst hr
           simp only [List.length_cons]
           omega)
        | (have hlow := decodeLowSurrogate_length _ _ _ _ h
           simp only [List.length_cons] at hlow ⊢
           omega)
        | simp at h
  | [] => simp [decodeU] at h
  | [x1] => simp [decodeU] at h
  | [x1, x2] => simp [decodeU] at h
  | [x1, x2, x3] => simp [decodeU] at h

lemma decodeEsc_length (l : List Char) (ch : Char) (r : List Char)
    (h : decodeEsc l = some (ch, r)) : r.length ≤ l.length := by
  match l with
  | [] => simp [decodeEsc] at h
  | e :: rest =>
      simp only [decodeEsc] at h
      repeat' split at h
      all_goals first
        | (simp only [Option.some.injEq, Prod.mk.injEq] at h
           obtain ⟨hch, hr⟩ := h
           subst hr
           simp only [List.length_cons]
           omega)
        | (have hu := decodeU_length _ _ _ h
           simp only [List.length_cons] at hu ⊢
           omega)
        | simp at h

/-- Parse the body of a JSON string literal up to (and consuming) the closing
quote. -/
def parseStrBody : List Char → Option (List Char × List Char)
  | [] => none
  | c :: rest =>
    if c = '\"' then some ([], rest)
    else if c = '\\' then
      match h : decodeEsc rest with
      | some (ch, rest2) => consStr ch (parseStrBody rest2)
      | none => none
    else consStr c (parseStrBody rest)
termination_by l => l.length
decreasing_by
  · have := decodeEsc_length rest ch rest2 h
    simp only [List.length_cons]
    omega
  · simp only [List.length_cons]
    omega

lemma psb_quote (rest : List Char) : parseStrBody ('\"' :: rest) = some ([], rest) := by
  simp [parseStrBody]

lemma psb_esc (rest : List Char) (ch : Char) (rest2 : List Char)
    (h : decodeEsc rest = some (ch, rest2)) :
    parseStrBody ('\\' :: rest) = consStr ch (parseStrBody rest2) := by
  simp only [parseStrBody]
  rw [if_neg (show ¬(('\\' : Char) = '\"') from by decide), if_pos trivial]
  split
  · rename_i ch2 rest3 heq
    rw [h] at heq
    simp only [Option.some.injEq, Prod.mk.injEq] at heq
    obtain ⟨rfl, rfl⟩ := heq
    rfl
  · rename_i heq
    rw [h] at heq
    simp at heq

lemma psb_lit (c : Char) (h1 : ¬c = '\"') (h2 : ¬c = '\\') (rest : List Char) :
    parseStrBody (c :: rest) = consStr c (parseStrBody rest) := by
  simp [parseStrBody, h1, h2]

/-- A non-surrogate `\uXXXX` escape decodes back to its code point. -/
lemma decodeEsc_u4 (v : Nat) (hv : v < 0x10000)
    (hs1 : ¬(0xD800 ≤ v ∧ v ≤ 0xDBFF)) (hs2 : ¬(0xDC00 ≤ v ∧ v ≤ 0xDFFF))
    (rest : List Char) :
    decodeEsc ('u' :: (hex4Chars v ++ rest)) = some (Char.ofNat v, rest) := by
  have e1 := hexDigitVal_hexDigitChar (v / 4096 % 16) (by omega)
  have e2 := hexDigitVal_hexDigitChar (v / 256 % 16) (by omega)
  have e3 := hexDigitVal_hexDigitChar (v / 16 % 16) (by omega)
  have e4 := hexDigitVal_hexDigitChar (v % 16) (by omega)
  have harith :
      ((v / 4096 % 16 * 16 + v / 256 % 16) * 16 + v / 16 % 16) * 16 + v % 16 = v := by
    omega
  simp [decodeEsc, decodeU, hex4Chars, e1, e2, e3, e4, harith, hs1, hs2]

/-- A surrogate pair decodes back to the astral code point it encodes. -/
lemma decodeEsc_surrogatePair (v w : Nat)
    (hv : 0xD800 ≤ v ∧ v ≤ 0xDBFF) (hw : 0xDC00 ≤ w ∧ w ≤ 0xDFFF)
    (rest : List Char) :
    decodeEsc ('u' :: (hex4Chars v ++ ('\\' :: 'u' :: (hex4Chars w ++ rest))))
      = some (Char.ofNat (0x10000 + (v - 0xD800) * 0x400 + (w - 0xDC00)), rest) := by
  have e1 := hexDigitVal_hexDigitChar (v / 4096 % 16) (by omega)
  have e2 := hexDigitVal_hexDigitChar (v / 256 % 16) (by omega)
  have e3 := hexDigitVal_hexDigitChar (v / 16 % 16) (by omega)
  have e4 := hexDigitVal_hexDigitChar (v % 16) (by omega)
  have f1 := hexDigitVal_hexDigitChar (w / 4096 % 16) (by omega)
  have f2 := hexDigitVal_hexDigitChar (w / 256 % 16) (by omega)
  have f3 := hexDigitVal_hexDigitChar (w / 16 % 16) (by omega)
  have f4 := hexDigitVal_hexDigitChar (w % 16) (by omega)
  have harithv :
      ((v / 4096 % 16 * 16 + v / 256 % 16) * 16 + v / 16 % 16) * 16 + v % 16 = v := by
    omega
  have harithw :
      ((w / 4096 % 16 * 16 + w / 256 % 16) * 16 + w / 16 % 16) * 16 + w % 16 = w := by
    omega
  simp [decodeEsc, decodeU, decodeLowSurrogate, hex4Chars,
    e1, e2, e3, e4, f1, f2, f3, f4, harithv, harithw, hv, hw]

/-- Parsing one escaped character undoes `escapeChar`. -/
lemma parseStrBody_escapeChar (c : Char) (tail : List Char) :
    parseStrBody (escapeChar c ++ tail) = consStr c (parseStrBody tail) := by
  by_cases h1 : c = '\"'
  · subst h1
    simp only [escapeChar, if_pos rfl, List.cons_append, List.nil_append]
    exact psb_esc _ _ _ (by simp [decodeEsc])
  by_cases h2 : c = '\\'
  · subst h2
    rw [show escapeChar '\\' = ['\\', '\\'] from by simp [escapeChar], List.cons_append,
      List.cons_append, List.nil_append]
    exact psb_esc _ _ _ (by simp [decodeEsc])
  by_cases h3 : c = '\n'
  · subst h3
    rw [show escapeChar '\n' = ['\\', 'n'] from by simp [escapeChar], List.cons_append,
      List.cons_append, List.nil_append]
    exact psb_esc _ _ _ (by simp [decodeEsc])
  by_cases h4 : c = '\r'
  · subst h4
    rw [show escapeChar '\r' = ['\\', 'r'] from by simp [escapeChar], List.cons_append,
      List.cons_append, List.nil_append]
    exact psb_esc _ _ _ (by simp [decodeEsc])
  by_cases h5 : c = '\t'
  · subst h5
    rw [show escapeChar '\t' = ['\\', 't'] from by simp [escapeChar], List.cons_append,
      List.cons_append, List.nil_append]
    exact psb_esc _ _ _ (by simp [decodeEsc])
  by_cases h6 : c = Char.ofNat 8
  · subst h6
    rw [show escapeChar (Char.ofNat 8) = ['\\', 'b'] from by simp [escapeChar], List.cons_append,
      List.cons_append, List.nil_append]
    exact psb_esc _ _ _ (by simp [decodeEsc])
  by_cases h7 : c = Char.ofNat 12
  · subst h7
    rw [show escapeChar (Char.ofNat 12) = ['\\', 'f'] from by simp [escapeChar], List.cons_append,
      List.cons_append, List.nil_append]
    exact psb_esc _ _ _ (by simp [decodeEsc])
  by_cases h8 : c.toNat < 0x20
  · have hesc : escapeChar c = '\\' :: 'u' :: hex4Chars c.toNat := by
      simp [escapeChar, h1, h2, h3, h4, h5, h6, h7, h8]
    rw [hesc, List.cons_append, List.cons_append,
      psb_esc _ _ _ (decodeEsc_u4 c.toNat (by omega) (by omega) (by omega) tail),
      Char.ofNat_toNat]
  by_cases h9 : c.toNat ≤ 0x7E
  · have hesc : escapeChar c = [c] := by
      simp [escapeChar, h1, h2, h3, h4, h5, h6, h7, h8, h9]
    rw [hesc, List.cons_append, List.nil_append, psb_lit c h1 h2]
  by_cases h10 : c.toNat < 0x10000
  · have hval := char_toNat_valid c
    have hesc : escapeChar c = '\\' :: 'u' :: hex4Chars c.toNat := by
      simp [escapeChar, h1, h2, h3, h4, h5, h6, h7, h8, h9, h10]
    rw [hesc, List.cons_append, List.cons_append,
      psb_esc _ _ _ (decodeEsc_u4 c.toNat (by omega)
        (by rcases hval with h | h <;> omega)
        (by rcases hval with h | h <;> omega) tail),
      Char.ofNat_toNat]
  · have hval := char_toNat_valid c
    have hup : c.toNat < 0x110000 := by rcases hval with h | h <;> omega
    have hesc : escapeChar c =
        ('\\' :: 'u' :: hex4Chars (0xD800 + (c.toNat - 0x10000) / 0x400)) ++
        ('\\' :: 'u' :: hex4Chars (0xDC00 + (c.toNat - 0x10000) % 0x400)) := by
      simp [escapeChar, h1, h2, h3, h4, h5, h6, h7, h8, h9, h10]
    have hshape :
        (('\\' :: 'u' :: hex4Chars (0xD800 + (c.toNat - 0x10000) / 0x400)) ++
          ('\\' :: 'u' :: hex4Chars (0xDC00 + (c.toNat - 0x10000) % 0x400))) ++ tail
        = '\\' :: 'u' :: (hex4Chars (0xD800 + (c.toNat - 0x10000) / 0x400) ++
            ('\\' :: 'u' :: (hex4Chars (0xDC00 + (c.toNat - 0x10000) % 0x400) ++ tail))) := by
      simp
    have harith :
        0x10000 + (0xD800 + (c.toNat - 0x10000) / 0x400 - 0xD800) * 0x400 +
          (0xDC00 + (c.toNat - 0x10000) % 0x400 - 0xDC00) = c.toNat := by
      omega
    rw [hesc, hshape,
      psb_esc _ _ _ (decodeEsc_surrogatePair _ _ ⟨by omega, by omega⟩ ⟨by omega, by omega⟩ tail),
      harith, Char.ofNat_toNat]

/-- Parsing an escaped body stops exactly at the closing quote and recovers
the original characters. -/
lemma parseStrBody_escapeChars (cs : List Char) (tail : List Char) :
    parseStrBody (escapeChars cs ++ '\"' :: tail) = some (cs, tail) := by
  induction cs with
  | nil => simp [escapeChars, psb_quote]
  | cons c cs ih =>
      have hsplit : escapeChars (c :: cs) ++ '\"' :: tail
          = escapeChar c ++ (escapeChars cs ++ '\"' :: tail) := by
        simp [escapeChars]
      rw [hsplit, parseStrBody_escapeChar, ih]
      rfl

/-! ### String literals, arrays and objects -/

/-- A complete JSON string literal. -/
def parseJStr : List Char → Option (String × List Char)
  | '\"' :: rest =>
    match parseStrBody rest with
    | some (cs, rest2) => some (⟨cs⟩, rest2)
    | none => none
  | _ => none

/-- JSON insignificant whitespace (what `json.loads` skips between tokens). -/
def isJsonWs (c : Char) : Bool :=
  c = ' ' || c = '\t' || c = '\n' || c = '\r'

def skipWs (l : List Char) : List Char := l.dropWhile isJsonWs

lemma skipWs_cons_of_not (c : Char) (h : isJsonWs c = false) (l : List Char) :
    skipWs (c :: l) = c :: l := by
  simp [skipWs, List.dropWhile_cons, h]

lemma parseJStr_dumpStr (s : String) (tail : List Char) :
    parseJStr (dumpStr s ++ tail) = some (s, tail) := by
  have hshape : dumpStr s ++ tail = '\"' :: (escapeChars s.data ++ ('\"' :: tail)) := by
    simp [dumpStr]
  rw [hshape]
  simp only [parseJStr]
  rw [parseStrBody_escapeChars]

/-- One-or-more comma-separated string literals up to the closing `]`; the
fuel only serves termination and any value at least the element count works. -/
def parseStrElems : Nat → List Char → Option (List String × List Char)
  | 0, _ => none
  | fuel + 1, l =>
    match parseJStr l with
    | none => none
    | some (s, rest) =>
      match skipWs rest with
      | ']' :: rest2 => some ([s], rest2)
      | ',' :: rest2 =>
        match parseStrElems fuel (skipWs rest2) with
        | some (xs, rest3) => some (s :: xs, rest3)
        | none => none
      | _ => none

/-- A JSON array of string literals. -/
def parseStrArr : List Char → Option (List String × List Char)
  | '[' :: rest =>
    match skipWs rest with
    | ']' :: rest2 => some ([], rest2)
    | r => parseStrElems (r.length + 1) r
  | _ => none

lemma dumpStrListBody_cons (y : String) (rest : List String) :
    ∃ t, dumpStrListBody (y :: rest) = '\"' :: t := by
  cases rest <;> simp [dumpStrListBody, dumpStr]

lemma dumpStrListBody_length (xs : List String) :
    xs.length ≤ (dumpStrListBody xs).length := by
  induction xs with
  | nil => simp [dumpStrListBody]
  | cons x rest ih =>
      cases rest with
      | nil => simp [dumpStrListBody, dumpStr]
      | cons y r =>
          simp only [dumpStrListBody, List.length_append, List.length_cons] at ih ⊢
          simp [dumpStr]
          omega

lemma parseStrElems_dump (xs : List String) (hne : xs ≠ []) :
    ∀ (fuel : Nat), xs.length ≤ fuel → ∀ (tail : List Char),
      parseStrElems fuel (dumpStrListBody xs ++ ']' :: tail) = some (xs, tail) := by
  induction xs with
  | nil => exact absurd rfl hne
  | cons x rest ih =>
      intro fuel hfuel tail
      match fuel, hfuel with
      | fuel + 1, hf =>
        cases rest with
        | nil =>
            have hshape : dumpStrListBody [x] ++ ']' :: tail = dumpStr x ++ (']' :: tail) := by
              simp [dumpStrListBody]
            rw [hshape]
            simp only [parseStrElems, parseJStr_dumpStr]
            rw [skipWs_cons_of_not ']' (by decide)]
            rfl
        | cons y r =>
            have hshape : dumpStrListBody (x :: y :: r) ++ ']' :: tail
                = dumpStr x ++ (',' :: ' ' :: (dumpStrListBody (y :: r) ++ ']' :: tail)) := by
              simp [dumpStrListBody]
            rw [hshape]
            simp only [parseStrElems, parseJStr_dumpStr]
            rw [skipWs_cons_of_not ',' (by decide)]
            obtain ⟨t, ht⟩ := dumpStrListBody_cons y r
            have hsp : skipWs (' ' :: (dumpStrListBody (y :: r) ++ ']' :: tail))
                = dumpStrListBody (y :: r) ++ ']' :: tail := by
              rw [ht, List.cons_append]
              simp [skipWs, List.dropWhile_cons, isJsonWs]
            split
            · rename_i heq
              simp at heq
            · rename_i rest2 heq
              simp only [List.cons.injEq] at heq
              obtain ⟨-, rfl⟩ := heq
              rw [hsp, ih (by simp) fuel (by simp at hf ⊢; omega) tail]
            · rename_i hnoBr hnoComma
              exact ((hnoComma (' ' :: (dumpStrListBody (y :: r) ++ ']' :: tail)) rfl)).elim


lemma parseStrArr_inner (xs : List String) (tail : List Char) :
    parseStrArr ('[' :: (dumpStrListBody xs ++ (']' :: tail))) = some (xs, tail) := by
  cases xs with
  | nil =>
      simp only [dumpStrListBody, List.nil_append, parseStrArr]
      rw [skipWs_cons_of_not ']' (by decide)]
      rfl
  | cons x rest =>
      obtain ⟨t, ht⟩ := dumpStrListBody_cons x rest
      simp only [parseStrArr]
      rw [show skipWs (dumpStrListBody (x :: rest) ++ ']' :: tail)
          = dumpStrListBody (x :: rest) ++ ']' :: tail from by
        rw [ht, List.cons_append]
        exact skipWs_cons_of_not '\"' (by decide) _]
      split
      · rename_i rest2 heq
        rw [ht, List.cons_append] at heq
        simp at heq
      · exact parseStrElems_dump (x :: rest) (by simp) _
          (by have hlen := dumpStrListBody_length (x :: rest)
              simp only [List.length_append, List.length_cons] at hlen ⊢
              omega) tail

lemma parseStrArr_dump (xs : List String) (tail : List Char) :
    parseStrArr (dumpStrList xs ++ tail) = some (xs, tail) := by
  rw [show dumpStrList xs ++ tail = '[' :: (dumpStrListBody xs ++ (']' :: tail)) from by
    simp [dumpStrList]]
  exact parseStrArr_inner xs tail

/-- A JSON value of the report fragment: a string or an array of strings. -/
def parseJVal (l : List Char) : Option (JVal × List Char) :=
  match l with
  | '\"' :: _ =>
    match parseJStr l with
    | some (s, r) => some (.jstr s, r)
    | none => none
  | '[' :: _ =>
    match parseStrArr l with
    | some (xs, r) => some (.jarr xs, r)
    | none => none
  | _ => none

lemma parseJStr_inner (s : String) (tail : List Char) :
    parseJStr ('\"' :: (escapeChars s.data ++ ('\"' :: tail))) = some (s, tail) := by
  simp only [parseJStr]
  rw [parseStrBody_escapeChars]

lemma parseJVal_dump (v : JVal) (tail : List Char) :
    parseJVal (dumpJVal v ++ tail) = some (v, tail) := by
  cases v with
  | jstr s =>
      rw [show dumpJVal (.jstr s) ++ tail = '\"' :: (escapeChars s.data ++ ('\"' :: tail)) from by
        simp [dumpJVal, dumpStr]]
      simp only [parseJVal]
      rw [parseJStr_inner]
  | jarr xs =>
      rw [show dumpJVal (.jarr xs) ++ tail = '[' :: (dumpStrListBody xs ++ (']' :: tail)) from by
        simp [dumpJVal, dumpStrList]]
      simp only [parseJVal]
      rw [parseStrArr_inner]

/-- Every dumped JSON value starts with `"` or `[` — in particular with a
non-whitespace character. -/
lemma dumpJVal_head (v : JVal) :
    ∃ c t, dumpJVal v = c :: t ∧ isJsonWs c = false := by
  cases v with
  | jstr s =>
      exact ⟨'\"', escapeChars s.data ++ ['\"'], by simp [dumpJVal, dumpStr], by decide⟩
  | jarr xs =>
      exact ⟨'[', dumpStrListBody xs ++ [']'], by simp [dumpJVal, dumpStrList], by decide⟩

/-! ### Object parsing -/

/-- One-or-more `"key": value` members up to the closing `}`; the fuel only
serves termination and any value at least the member count works. -/
def parseMembersFuel : Nat → List Char → Option (List (String × JVal) × List Char)
  | 0, _ => none
  | fuel + 1, l =>
    match parseJStr (skipWs l) with
    | none => none
    | some (k, rest) =>
      match skipWs rest with
      | ':' :: rest2 =>
        match parseJVal (skipWs rest2) with
        | none => none
        | some (v, rest3) =>
          match skipWs rest3 with
          | '}' :: rest4 => some ([(k, v)], rest4)
          | ',' :: rest4 =>
            match parseMembersFuel fuel rest4 with
            | some (kvs, rest5) => some ((k, v) :: kvs, rest5)
            | none => none
          | _ => none
      | _ => none

/-- A JSON object of the report fragment. -/
def parseObj : List Char → Option (List (String × JVal) × List Char)
  | '{' :: rest =>
    match skipWs rest with
    | '}' :: rest2 => some ([], rest2)
    | r => parseMembersFuel (r.length + 1) r
  | _ => none

lemma skipWs_dumpStr_append (s : String) (X : List Char) :
    skipWs (dumpStr s ++ X) = dumpStr s ++ X := by
  rw [show dumpStr s ++ X = '\"' :: ((escapeChars s.data ++ ['\"']) ++ X) from by
    simp [dumpStr]]
  exact skipWs_cons_of_not '\"' (by decide) _

lemma skipWs_space (Y : List Char) : skipWs (' ' :: Y) = skipWs Y := by
  simp [skipWs, List.dropWhile_cons, isJsonWs]

lemma skipWs_space_dumpJVal (v : JVal) (X : List Char) :
    skipWs (' ' :: (dumpJVal v ++ X)) = dumpJVal v ++ X := by
  obtain ⟨c, t, hv, hc⟩ := dumpJVal_head v
  rw [skipWs_space, hv, List.cons_append]
  exact skipWs_cons_of_not c hc _

lemma dumpMembers_cons_shape (k : String) (v : JVal) (rest : List (String × JVal)) :
    ∃ X, dumpMembers ((k, v) :: rest) = dumpStr k ++ X := by
  cases rest with
  | nil => exact ⟨':' :: ' ' :: dumpJVal v, rfl⟩
  | cons kv r =>
      exact ⟨(':' :: ' ' :: dumpJVal v) ++ (',' :: ' ' :: dumpMembers (kv :: r)),
        by simp [dumpMembers]⟩

lemma dumpMembers_length (kvs : List (String × JVal)) :
    kvs.length ≤ (dumpMembers kvs).length := by
  induction kvs with
  | nil => simp [dumpMembers]
  | cons kv rest ih =>
      obtain ⟨k, v⟩ := kv
      cases rest with
      | nil => simp [dumpMembers, dumpStr]
      | cons kv2 r =>
          simp only [dumpMembers, List.length_append, List.length_cons] at ih ⊢
          simp [dumpStr]
          omega

lemma parseMembersFuel_space (fuel : Nat) (X : List Char) :
    parseMembersFuel (fuel + 1) (' ' :: X) = parseMembersFuel (fuel + 1) X := by
  simp only [parseMembersFuel]
  rw [show skipWs (' ' :: X) = skipWs X from by
    simp [skipWs, List.dropWhile_cons, isJsonWs]]

lemma parseMembersFuel_dump (kvs : List (String × JVal)) (hne : kvs ≠ []) :
    ∀ (fuel : Nat), kvs.length ≤ fuel → ∀ (tail : List Char),
      parseMembersFuel fuel (dumpMembers kvs ++ '}' :: tail) = some (kvs, tail) := by
  induction kvs with
  | nil => exact absurd rfl hne
  | cons kv rest ih =>
      obtain ⟨k, v⟩ := kv
      intro fuel hfuel tail
      match fuel, hfuel with
      | fuel + 1, hf =>
        cases rest with
        | nil =>
            have hshape : dumpMembers [(k, v)] ++ '}' :: tail
                = dumpStr k ++ (':' :: ' ' :: (dumpJVal v ++ ('}' :: tail))) := by
              simp [dumpMembers]
            rw [hshape]
            simp only [parseMembersFuel, skipWs_dumpStr_append, parseJStr_dumpStr,
              skipWs_cons_of_not ':' (by decide), skipWs_space_dumpJVal, parseJVal_dump,
              skipWs_cons_of_not '}' (by decide)]
        | cons kv2 r =>
            have hshape : dumpMembers ((k, v) :: kv2 :: r) ++ '}' :: tail
                = dumpStr k ++ (':' :: ' ' :: (dumpJVal v ++
                    (',' :: ' ' :: (dumpMembers (kv2 :: r) ++ '}' :: tail)))) := by
              simp [dumpMembers]
            rw [hshape]
            simp only [parseMembersFuel, skipWs_dumpStr_append, parseJStr_dumpStr,
              skipWs_cons_of_not ':' (by decide), skipWs_space_dumpJVal, parseJVal_dump,
              skipWs_cons_of_not ',' (by decide)]
            match fuel, hf with
            | fuel + 1, hf2 =>
              rw [parseMembersFuel_space,
                ih (by simp) (fuel + 1) (by simp at hf2 ⊢; omega) tail]

lemma dumpObj_shape (kvs : List (String × JVal)) :
    dumpObj kvs = '{' :: (dumpMembers kvs ++ ['}']) := rfl

lemma parseObj_dump (kvs : List (String × JVal)) (hne : kvs ≠ []) (tail : List Char) :
    parseObj (dumpObj kvs ++ tail) = some (kvs, tail) := by
  match kvs, hne with
  | (k, v) :: rest, _ =>
    have hshape : dumpObj ((k, v) :: rest) ++ tail
        = '{' :: (dumpMembers ((k, v) :: rest) ++ ('}' :: tail)) := by
      simp [dumpObj_shape]
    rw [hshape]
    simp only [parseObj]
    obtain ⟨X, hX⟩ := dumpMembers_cons_shape k v rest
    rw [show skipWs (dumpMembers ((k, v) :: rest) ++ '}' :: tail)
        = dumpMembers ((k, v) :: rest) ++ '}' :: tail from by
      rw [hX, List.append_assoc]
      exact skipWs_dumpStr_append k _]
    split
    · rename_i rest2 heq
      rw [hX] at heq
      simp [dumpStr] at heq
    · exact parseMembersFuel_dump ((k, v) :: rest) (by simp) _
        (by have hlen := dumpMembers_length ((k, v) :: rest)
            simp only [List.length_append, List.length_cons] at hlen ⊢
            omega) tail

/-- Model of `json.loads` on a complete document of this fragment: the object, with
only trailing whitespace allowed after it. -/
def jsonLoadsObj (l : List Char) : Option (List (String × JVal)) :=
  match parseObj (skipWs l) with
  | some (kvs, rest) => if (skipWs rest).isEmpty then some kvs else none
  | none => none

lemma jsonLoadsObj_dump (kvs : List (String × JVal)) (hne : kvs ≠ []) :
    jsonLoadsObj (dumpObj kvs) = some kvs := by
  have h0 : skipWs (dumpObj kvs) = dumpObj kvs := by
    rw [dumpObj_shape]
    exact skipWs_cons_of_not '{' (by decide) _
  have h1 := parseObj_dump kvs hne []
  rw [List.append_nil] at h1
  simp only [jsonLoadsObj, h0, h1]
  rfl

/-! ### Field extraction from the parsed object (Python `dict` semantics) -/

/-- Lookup in the dict built from the parsed key/value pairs: as in Python,
a later binding of the same key overrides an earlier one. -/
def pyDictLookup (kvs : List (String × JVal)) (k : String) : Option JVal :=
  match kvs with
  | [] => none
  | (k0, v) :: rest =>
    match pyDictLookup rest k with
    | some v2 => some v2
    | none => if k0 = k then some v else none

def jvalAsStr : Option JVal → Option String
  | some (.jstr s) => some s
  | _ => none

def jvalAsStrList : Option JVal → Option (List String)
  | some (.jarr xs) => some xs
  | _ => none

def jvalAsDetails : Option JVal → Option TriageDetails
  | some (.jstr s) => some (.text s)
  | some (.jarr xs) => some (.items xs)
  | none => none

/-- Rebuild a `TriageReport` from the decoded JSON object, reading exactly
the four serialized fields. -/
def decodeReportObj (kvs : List (String × JVal)) : Option TriageReport :=
  match jvalAsStr (pyDictLookup kvs "root_cause"),
        jvalAsDetails (pyDictLookup kvs "details"),
        jvalAsStr (pyDictLookup kvs "action"),
        jvalAsStrList (pyDictLookup kvs "failed_agents") with
  | some rc, some det, some act, some fa => some ⟨rc, det, act, fa⟩
  | _, _, _, _ => none

lemma jvalAsDetails_detailsJVal (d : TriageDetails) :
    jvalAsDetails (some (detailsJVal d)) = some d := by
  cases d <;> rfl

lemma decodeReportObj_reportPairs (r : TriageReport) :
    decodeReportObj (reportPairs r) = some r := by
  have h1 : pyDictLookup (reportPairs r) "root_cause" = some (.jstr r.root_cause) := by
    simp [pyDictLookup, reportPairs]
  have h2 : pyDictLookup (reportPairs r) "details" = some (detailsJVal r.details) := by
    simp [pyDictLookup, reportPairs]
  have h3 : pyDictLookup (reportPairs r) "action" = some (.jstr r.action) := by
    simp [pyDictLookup, reportPairs]
  have h4 : pyDictLookup (reportPairs r) "failed_agents" = some (.jarr r.failed_agents) := by
    simp [pyDictLookup, reportPairs]
  simp only [decodeReportObj, h1, h2, h3, h4, jvalAsStr, jvalAsStrList,
    jvalAsDetails_detailsJVal]

/-! ### The SSE frame and its consumer (`streaming.py` / `frontend/app.py`) -/

/-- Model of `str.startswith(prefix)`. -/
def startsWithChars : List Char → List Char → Bool
  | [], _ => true
  | _ :: _, [] => false
  | p :: ps, c :: cs => p = c && startsWithChars ps cs

/-- Model of `line.split(":", 1)[1]`: everything after the first colon. -/
def afterFirstColon : List Char → List Char
  | [] => []
  | c :: rest => if c = ':' then rest else afterFirstColon rest

/-- The whitespace `str.strip()` removes (the ASCII cases). -/
def isPySpace (c : Char) : Bool :=
  c = ' ' || c = '\t' || c = '\n' || c = '\r' || c = Char.ofNat 11 || c = Char.ofNat 12

/-- Model of `str.strip()`. -/
def pyStrip (l : List Char) : List Char :=
  ((l.dropWhile isPySpace).reverse.dropWhile isPySpace).reverse

/-- Split the received byte stream into lines, as `response.iter_lines()`
presents them to the frontend loop. -/
def splitOnNl : List Char → List (List Char)
  | [] => [[]]
  | c :: rest =>
    if c = '\n' then [] :: splitOnNl rest
    else
      match splitOnNl rest with
      | [] => [[c]]
      | line :: lines => (c :: line) :: lines

/-- The frontend's SSE line loop (`frontend/app.py`): skip empty lines, an
`event:` line updates the current event type, and a `data:` line yields the
current event type together with the stripped data payload. -/
def scanSSE : Option (List Char) → List (List Char) → Option (List Char × List Char)
  | _, [] => none
  | evt, line :: rest =>
    if line.isEmpty then scanSSE evt rest
    else if startsWithChars ("event:").data line then
      scanSSE (some (pyStrip (afterFirstColon line))) rest
    else if startsWithChars ("data:").data line then
      match evt with
      | some e => some (e, pyStrip (afterFirstColon line))
      | none => none
    else scanSSE evt rest

/-- The consumer side end to end: split the frame into lines, find the
`triage_report` data payload, `json.loads` it and read the four report
fields. -/
def consumeTriageFrame (frame : List Char) : Option TriageReport :=
  match scanSSE none (splitOnNl frame) with
  | some (evt, dataChars) =>
    if evt = ("triage_report").data then
      match jsonLoadsObj dataChars with
      | some kvs => decodeReportObj kvs
      | none => none
    else none
  | none => none

/-! ### The dumped report contains no newline -/

lemma hexDigitChar_ne_nl (d : Nat) (hd : d < 16) : ¬('\n' = hexDigitChar d) := by
  interval_cases d <;> decide

lemma nl_not_mem_hex4 (v : Nat) : '\n' ∉ hex4Chars v := by
  simp only [hex4Chars, List.mem_cons, List.not_mem_nil, or_false]
  push_neg
  exact ⟨hexDigitChar_ne_nl _ (by omega), hexDigitChar_ne_nl _ (by omega),
    hexDigitChar_ne_nl _ (by omega), hexDigitChar_ne_nl _ (by omega)⟩

lemma nl_not_mem_escapeChar (c : Char) : '\n' ∉ escapeChar c := by
  by_cases h1 : c = '\"'
  · subst h1; decide
  by_cases h2 : c = '\\'
  · subst h2; decide
  by_cases h3 : c = '\n'
  · subst h3; decide
  by_cases h4 : c = '\r'
  · subst h4; decide
  by_cases h5 : c = '\t'
  · subst h5; decide
  by_cases h6 : c = Char.ofNat 8
  · subst h6; decide
  by_cases h7 : c = Char.ofNat 12
  · subst h7; decide
  by_cases h8 : c.toNat < 0x20
  · rw [show escapeChar c = '\\' :: 'u' :: hex4Chars c.toNat from by
      simp [escapeChar, h1, h2, h3, h4, h5, h6, h7, h8]]
    simp [List.mem_cons, nl_not_mem_hex4]
  by_cases h9 : c.toNat ≤ 0x7E
  · rw [show escapeChar c = [c] from by
      simp [escapeChar, h1, h2, h3, h4, h5, h6, h7, h8, h9]]
    simp only [List.mem_cons, List.not_mem_nil, or_false]
    exact fun hh => h3 hh.symm
  by_cases h10 : c.toNat < 0x10000
  · rw [show escapeChar c = '\\' :: 'u' :: hex4Chars c.toNat from by
      simp [escapeChar, h1, h2, h3, h4, h5, h6, h7, h8, h9, h10]]
    simp [List.mem_cons, nl_not_mem_hex4]
  · rw [show escapeChar c =
        ('\\' :: 'u' :: hex4Chars (0xD800 + (c.toNat - 0x10000) / 0x400)) ++
        ('\\' :: 'u' :: hex4Chars (0xDC00 + (c.toNat - 0x10000) % 0x400)) from by
      simp [escapeChar, h1, h2, h3, h4, h5, h6, h7, h8, h9, h10]]
    simp [List.mem_cons, List.mem_append, nl_not_mem_hex4]

lemma nl_not_mem_escapeChars (cs : List Char) : '\n' ∉ escapeChars cs := by
  intro hmem
  simp only [escapeChars, List.mem_flatten, List.mem_map] at hmem
  obtain ⟨l, ⟨c, -, rfl⟩, hl⟩ := hmem
  exact nl_not_mem_escapeChar c hl

lemma nl_not_mem_dumpStr (s : String) : '\n' ∉ dumpStr s := by
  simp [dumpStr, List.mem_cons, List.mem_append, nl_not_mem_escapeChars]

lemma nl_not_mem_dumpStrListBody (xs : List String) : '\n' ∉ dumpStrListBody xs := by
  induction xs with
  | nil => simp [dumpStrListBody]
  | cons x rest ih =>
      cases rest with
      | nil => simpa [dumpStrListBody] using nl_not_mem_dumpStr x
      | cons y r =>
          simp [dumpStrListBody, List.mem_append, List.mem_cons,
            nl_not_mem_dumpStr x, ih]

lemma nl_not_mem_dumpJVal (v : JVal) : '\n' ∉ dumpJVal v := by
  cases v with
  | jstr s => simpa [dumpJVal] using nl_not_mem_dumpStr s
  | jarr xs =>
      simp [dumpJVal, dumpStrList, List.mem_cons, List.mem_append,
        nl_not_mem_dumpStrListBody]

lemma nl_not_mem_dumpMembers (kvs : List (String × JVal)) : '\n' ∉ dumpMembers kvs := by
  induction kvs with
  | nil => simp [dumpMembers]
  | cons kv rest ih =>
      obtain ⟨k, v⟩ := kv
      cases rest with
      | nil =>
          simp [dumpMembers, List.mem_append, List.mem_cons,
            nl_not_mem_dumpStr k, nl_not_mem_dumpJVal v]
      | cons kv2 r =>
          simp [dumpMembers, List.mem_append, List.mem_cons,
            nl_not_mem_dumpStr k, nl_not_mem_dumpJVal v, ih]

lemma nl_not_mem_dumpReport (r : TriageReport) : '\n' ∉ dumpReport r := by
  simp [dumpReport, dumpObj_shape, List.mem_cons, List.mem_append,
    nl_not_mem_dumpMembers]

/-! ### The round trip -/

lemma splitOnNl_append :
    ∀ (a : List Char), '\n' ∉ a → ∀ (rest : List Char),
      splitOnNl (a ++ '\n' :: rest) = a :: splitOnNl rest
  | [], _, rest => by simp [splitOnNl]
  | c :: a2, ha, rest => by
      have hc : ¬(c = '\n') := fun hh => ha (by simp [hh])
      have ha2 : '\n' ∉ a2 := fun hm => ha (by simp [hm])
      rw [List.cons_append]
      simp only [splitOnNl]
      rw [if_neg hc, splitOnNl_append a2 ha2 rest]

lemma pyStrip_space_obj (mid : List Char) :
    pyStrip (' ' :: ('{' :: (mid ++ ['}']))) = '{' :: (mid ++ ['}']) := by
  unfold pyStrip
  rw [List.dropWhile_cons, if_pos (by decide), List.dropWhile_cons, if_neg (by decide)]
  rw [show ('{' :: (mid ++ ['}'])).reverse = '}' :: (mid.reverse ++ ['{']) from by simp]
  rw [List.dropWhile_cons, if_neg (by decide)]
  simp

lemma scanSSE_event_line (rest : List (List Char)) :
    scanSSE none (("event: triage_report").data :: rest)
      = scanSSE (some (("triage_report").data)) rest := by
  simp only [scanSSE]
  rw [if_neg (by decide), if_pos (by decide)]
  rw [show pyStrip (afterFirstColon (("event: triage_report").data))
      = ("triage_report").data from by decide]

lemma scanSSE_data_line (T : List Char) (j : List Char) (rest : List (List Char)) :
    scanSSE (some T) (((("data: ").data ++ j)) :: rest)
      = some (T, pyStrip (' ' :: j)) := by
  have hshape : ("data: ").data ++ j = 'd' :: 'a' :: 't' :: 'a' :: ':' :: ' ' :: j := rfl
  rw [hshape]
  simp only [scanSSE]
  rw [if_neg (by simp), if_neg (by simp [startsWithChars]), if_pos (by simp [startsWithChars])]
  rw [show afterFirstColon ('d' :: 'a' :: 't' :: 'a' :: ':' :: ' ' :: j) = ' ' :: j from by
    simp [afterFirstColon]]

/-- C9: encoding a final report to its SSE wire frame (`streaming.py`: an
`event: triage_report` frame terminated by a double newline whose `data:`
line holds the report as single-line JSON) and decoding that frame on the
consumer side (`frontend/app.py`: line splitting, prefix parsing,
`json.loads`, field reads) reproduces the fields `root_cause`, `details`,
`action` and `failed_agents` exactly — the decoded report equals the
original. -/
theorem report_sse_frame_round_trip (r : TriageReport) :
    consumeTriageFrame (triageFrame r) = some r := by
  have hframe : triageFrame r
      = ("event: triage_report").data ++
          '\n' :: (((("data: ").data ++ dumpReport r)) ++ '\n' :: ('\n' :: [])) := by
    simp [triageFrame]
  have hnlD : '\n' ∉ ("data: ").data ++ dumpReport r := by
    intro hm
    rcases List.mem_append.mp hm with hm | hm
    · exact absurd hm (by decide)
    · exact nl_not_mem_dumpReport r hm
  have hlines : splitOnNl (triageFrame r)
      = ("event: triage_report").data ::
          ((("data: ").data ++ dumpReport r)) :: splitOnNl ('\n' :: []) := by
    rw [hframe, splitOnNl_append _ (by decide), splitOnNl_append _ hnlD]
  have hscan : scanSSE none (splitOnNl (triageFrame r))
      = some (("triage_report").data, pyStrip (' ' :: dumpReport r)) := by
    rw [hlines, scanSSE_event_line, scanSSE_data_line]
  have hstrip : pyStrip (' ' :: dumpReport r) = dumpReport r := by
    rw [show dumpReport r = '{' :: (dumpMembers (reportPairs r) ++ ['}']) from rfl]
    exact pyStrip_space_obj _
  have hjson : jsonLoadsObj (dumpReport r) = some (reportPairs r) :=
    jsonLoadsObj_dump (reportPairs r) (by simp [reportPairs])
  simp only [consumeTriageFrame, hscan, hstrip, if_pos rfl, hjson,
    decodeReportObj_reportPairs]
  rfl

end TriageFlow
